import Mathlib

/-!
Shallow embedding of the Amana Bookstore Express API (`src/server.js`).

The repository contains two near-identical server variants in one source
stream: the first ("lax") validates review ratings only for truthiness and
aggregates with `parseInt`; the second ("strict") additionally validates
`parseFloat(rating)` to be a number in [1,5] and stores the parsed float.
Both are embedded below as pure functions over an explicit `DB` state;
file-system writes become boolean parameters (`writeOk`), the system clock
becomes a string parameter (`now`), and the HTTP layer becomes explicit
argument/`WriteResp` passing.

JavaScript numbers are modelled as `JNum` (a rational or NaN): every
arithmetic step the handlers perform stays inside exact decimal fractions,
so rationals are faithful, and NaN is needed because the lax handler feeds
`parseInt` of arbitrary strings into the book aggregate.  Division by zero
is mapped to NaN; in JavaScript it would give ±Infinity, but the handlers
divide only by `reviewCount + 1`, which is zero only when a caller stored a
negative `reviewCount`, a corner no theorem below depends on.
-/

namespace Amana

/-- JavaScript number: NaN or an exact rational. -/
inductive JNum where
  | nan : JNum
  | num (q : ℚ) : JNum
deriving DecidableEq, Repr

/-- Multiplication on `ℚ` phrased through `Rat.divInt` so that concrete
instances evaluate inside `decide` (the library's `Rat.mul` is
`@[irreducible]`); `qmul_eq_mul` certifies it against `*`. -/
def qmul (a b : ℚ) : ℚ :=
  Rat.divInt (a.num * b.num) ((a.den : ℤ) * (b.den : ℤ))

/-- Addition on `ℚ` through `Rat.divInt`; `qadd_eq_add` certifies it. -/
def qadd (a b : ℚ) : ℚ :=
  Rat.divInt (a.num * (b.den : ℤ) + b.num * (a.den : ℤ)) ((a.den : ℤ) * (b.den : ℤ))

/-- Division on `ℚ` through `Rat.divInt`; `qdiv_eq_div` certifies it
(both sides send division by zero to zero). -/
def qdiv (a b : ℚ) : ℚ :=
  Rat.divInt (a.num * (b.den : ℤ)) ((a.den : ℤ) * b.num)

theorem qmul_eq_mul (a b : ℚ) : qmul a b = a * b := by
  unfold qmul
  conv_rhs => rw [← Rat.num_divInt_den a, ← Rat.num_divInt_den b]
  rw [Rat.divInt_mul_divInt _ _ (Int.natCast_ne_zero.mpr a.den_nz)
    (Int.natCast_ne_zero.mpr b.den_nz)]

theorem qadd_eq_add (a b : ℚ) : qadd a b = a + b := by
  unfold qadd
  conv_rhs => rw [← Rat.num_divInt_den a, ← Rat.num_divInt_den b]
  rw [Rat.divInt_add_divInt _ _ (Int.natCast_ne_zero.mpr a.den_nz)
    (Int.natCast_ne_zero.mpr b.den_nz)]

theorem qdiv_eq_div (a b : ℚ) : qdiv a b = a / b := by
  unfold qdiv
  rcases eq_or_ne b 0 with rfl | hb
  · simp [Rat.divInt_eq_div]
  · conv_rhs => rw [← Rat.num_divInt_den a, ← Rat.num_divInt_den b]
    rw [Rat.div_def, Rat.inv_divInt,
      Rat.divInt_mul_divInt _ _ (Int.natCast_ne_zero.mpr a.den_nz)
        (Rat.num_ne_zero.mpr hb)]

/-- JS `+` on numbers: NaN propagates. -/
def JNum.add : JNum → JNum → JNum
  | JNum.num a, JNum.num b => JNum.num (qadd a b)
  | _, _ => JNum.nan

/-- JS `*` on numbers: NaN propagates. -/
def JNum.mul : JNum → JNum → JNum
  | JNum.num a, JNum.num b => JNum.num (qmul a b)
  | _, _ => JNum.nan

/-- JS `/` on numbers. NaN propagates; division by zero is mapped to NaN
(see the module comment). -/
def JNum.div : JNum → JNum → JNum
  | JNum.num a, JNum.num b => if b = 0 then JNum.nan else JNum.num (qdiv a b)
  | _, _ => JNum.nan

/-- JS `<` on numbers: any comparison with NaN is false. -/
def JNum.jlt : JNum → JNum → Bool
  | JNum.num a, JNum.num b => a < b
  | _, _ => false

/-- Round a rational half-up to `d` decimal places, the rounding
`Number.prototype.toFixed(d)` performs (ties pick the larger candidate);
phrased through `Rat.divInt`, certified by `qRoundAt_eq`. -/
def qRoundAt (d : ℕ) (q : ℚ) : ℚ :=
  Rat.divInt ⌊qadd (qmul q (Rat.divInt ((10 ^ d : ℕ) : ℤ) 1)) (Rat.divInt 1 2)⌋
    ((10 ^ d : ℕ) : ℤ)

theorem qRoundAt_eq (d : ℕ) (q : ℚ) :
    qRoundAt d q = (⌊q * 10 ^ d + 1 / 2⌋ : ℚ) / 10 ^ d := by
  unfold qRoundAt
  rw [qadd_eq_add, qmul_eq_mul, Rat.divInt_eq_div, Rat.divInt_eq_div,
    Rat.divInt_eq_div]
  push_cast
  norm_num

/-- Rounding step of both review handlers, `parseFloat(x.toFixed(1))`:
round half-up to one decimal place; NaN round-trips to NaN.  The source
rounds the nearest IEEE double rather than the exact rational, which can
differ exactly at decimal ties (an argument whose decimal expansion ends
in …5 at the second place); no theorem below contrasts this rounding
with an independently computed value at such a tie. -/
def round1 : JNum → JNum
  | JNum.nan => JNum.nan
  | JNum.num q => JNum.num (qRoundAt 1 q)

/-- Weighted-score rounding `(x).toFixed(2)` read back as a number in the
top-rated handler (the sort comparator coerces the string to a number). -/
def round2 : JNum → JNum
  | JNum.nan => JNum.nan
  | JNum.num q => JNum.num (qRoundAt 2 q)

/-- A JSON scalar as it can arrive in a request body where the handlers
read a rating: a number or a string. -/
inductive JVal where
  | num (q : ℚ)
  | str (s : String)
deriving DecidableEq, Repr

/-- Numeric value of a digit run, most significant first. -/
def digitsVal (cs : List Char) : ℕ :=
  cs.foldl (fun a c => 10 * a + (c.toNat - 48)) 0

/-- Leading sign of a numeric literal: returns (negative?, rest). -/
def splitSign : List Char → Bool × List Char
  | '-' :: rest => (true, rest)
  | '+' :: rest => (false, rest)
  | cs => (false, cs)

/-- JS `parseInt` on a string (base 10): optional whitespace and sign, then
the longest digit prefix; NaN when no digit is found.  (The hexadecimal,
exponent and Infinity forms are outside every input considered here.) -/
def jsParseInt (s : String) : JNum :=
  let cs := s.data.dropWhile (fun c => c = ' ')
  let (neg, cs) := splitSign cs
  let ds := cs.takeWhile Char.isDigit
  if ds.isEmpty then JNum.nan
  else JNum.num (Rat.divInt (if neg then -(digitsVal ds : ℤ) else (digitsVal ds : ℤ)) 1)

/-- JS `parseFloat` on a string: optional whitespace and sign, digit prefix,
optional fraction; NaN when no digit is found.  (Exponent and Infinity
forms are outside every input considered here.) -/
def jsParseFloat (s : String) : JNum :=
  let cs := s.data.dropWhile (fun c => c = ' ')
  let (neg, cs) := splitSign cs
  let intDs := cs.takeWhile Char.isDigit
  let rest := cs.dropWhile Char.isDigit
  let fracDs := match rest with
    | '.' :: r => r.takeWhile Char.isDigit
    | _ => []
  if intDs.isEmpty && fracDs.isEmpty then JNum.nan
  else
    let den : ℤ := ((10 ^ fracDs.length : ℕ) : ℤ)
    let mag : ℚ := Rat.divInt ((digitsVal intDs : ℤ) * den + (digitsVal fracDs : ℤ)) den
    JNum.num (if neg then -mag else mag)

/-- Truncation of a rational toward zero, the value of `parseInt` on a
(non-exponent-notation) JS number, which is stringified first. -/
def qtrunc (q : ℚ) : ℤ :=
  if 0 ≤ q then ⌊q⌋ else ⌈q⌉

/-- JS `parseInt(v)` for a body value `v`: numbers are truncated toward zero
(via their decimal string form), strings are parsed. -/
def parseIntJV : JVal → JNum
  | JVal.num q => JNum.num (qtrunc q)
  | JVal.str s => jsParseInt s

/-- JS `parseFloat(v)` for a body value `v`: a number round-trips through its
decimal string form unchanged, strings are parsed. -/
def parseFloatJV : JVal → JNum
  | JVal.num q => JNum.num q
  | JVal.str s => jsParseFloat s

/-- JS truthiness of a possibly-absent string field (`!x` guard):
absent and the empty string are falsy. -/
def truthyStr : Option String → Bool
  | none => false
  | some s => s ≠ ""

/-- JS truthiness of a possibly-absent body value (`!x` guard): absent,
`0` and `""` are falsy. -/
def truthyJV : Option JVal → Bool
  | none => false
  | some (JVal.num q) => q ≠ 0
  | some (JVal.str s) => s ≠ ""

/-! ## Data model -/

/-- A catalog book as held in `booksData.books`.  The JS record is open;
the fields below are the ones any handler reads or writes.
`datePublished` is optional because nothing forces a caller to supply it
(an absent date makes both range comparisons false, as in JS). -/
structure Book where
  id : String
  title : String
  author : String
  rating : JNum
  reviewCount : ℤ
  datePublished : Option String
  inStock : Bool
  featured : Bool
deriving DecidableEq, Repr

/-- A review as held in `reviewsData.reviews`.  `rating` keeps the raw
body value: the lax handler stores it unmodified, the strict handler
stores the parsed float re-wrapped as a number. -/
structure Review where
  id : String
  bookId : String
  author : String
  rating : JVal
  timestamp : String
  verified : Bool
deriving DecidableEq, Repr

/-- The in-memory state: the two collections loaded from the JSON files. -/
structure DB where
  books : List Book
  reviews : List Review
deriving DecidableEq, Repr

/-- Request body for `POST /api/books`: every field may be absent. -/
structure BookInput where
  id : Option String
  title : Option String
  author : Option String
  rating : Option JNum
  reviewCount : Option ℤ
  datePublished : Option String
  inStock : Option Bool
  featured : Option Bool
deriving DecidableEq, Repr

/-- Request body for `POST /api/reviews`: every field may be absent. -/
structure ReviewInput where
  id : Option String
  bookId : Option String
  author : Option String
  rating : Option JVal
  timestamp : Option String
  verified : Option Bool
deriving DecidableEq, Repr

/-- Outcome of a write endpoint, by HTTP status and body shape:
401, 400 (missing fields), 404, 400 (duplicate key), 201 with the stored
entity, 500 (failed disk write). -/
inductive WriteResp (α : Type) where
  | unauthorized : WriteResp α
  | validationError : WriteResp α
  | notFound : WriteResp α
  | conflict : WriteResp α
  | created (data : α) : WriteResp α
  | persistenceError : WriteResp α
deriving DecidableEq, Repr

/-- HTTP status code of a write outcome. -/
def statusCode {α : Type} : WriteResp α → ℕ
  | WriteResp.unauthorized => 401
  | WriteResp.validationError => 400
  | WriteResp.notFound => 404
  | WriteResp.conflict => 400
  | WriteResp.created _ => 201
  | WriteResp.persistenceError => 500

/-- The `{id, title, author}` summary returned with a book's reviews. -/
structure BookSummary where
  id : String
  title : String
  author : String
deriving DecidableEq, Repr

/-- Outcome of `GET /api/reviews/book/:bookId`. -/
inductive ReviewsResp where
  | notFound : ReviewsResp
  | ok (book : BookSummary) (count : ℕ) (data : List Review) : ReviewsResp
deriving DecidableEq, Repr

/-! ## String comparison (JS relational operators on strings) -/

/-- JS `<=` on strings: lexicographic by code unit. -/
def charsLe : List Char → List Char → Bool
  | [], _ => true
  | _ :: _, [] => false
  | a :: as, b :: bs =>
    if a.val < b.val then true
    else if b.val < a.val then false
    else charsLe as bs

/-- JS `a <= b` for strings. -/
def strLeB (a b : String) : Bool := charsLe a.data b.data

/-! ## Read endpoints -/

/-- Handler for `GET /api/books`: the whole collection with its count. -/
def getBooks (db : DB) : ℕ × List Book := (db.books.length, db.books)

/-- Handler for `GET /api/books/featured`: books whose `featured` flag is `true`. -/
def getFeatured (db : DB) : List Book :=
  db.books.filter (fun b => b.featured)

/-- Whether a book's `datePublished` satisfies `start <= d && d <= end`
under JS string comparison; an absent date fails both comparisons. -/
def dateInRange (b : Book) (startD endD : String) : Bool :=
  match b.datePublished with
  | none => false
  | some d => strLeB startD d && strLeB d endD

/-- Handler for `GET /api/books/dates/:start/:end`: lexical inclusive range filter. -/
def getBooksByDate (db : DB) (startD endD : String) : List Book :=
  db.books.filter (fun b => dateInRange b startD endD)

/-- Handler for `GET /api/books/:id`: first book with that id, 404 when none. -/
def getBookById (db : DB) (bookId : String) : Option Book :=
  db.books.find? (fun b => b.id == bookId)

/-- The stored reviews whose `bookId` is `bid`, in insertion order. -/
def reviewsFor (db : DB) (bid : String) : List Review :=
  db.reviews.filter (fun r => r.bookId == bid)

/-- Handler for `GET /api/reviews/book/:bookId`: 404 when the book does not exist,
else the matching reviews with their count and the book summary. -/
def getReviewsForBook (db : DB) (bookId : String) : ReviewsResp :=
  match db.books.find? (fun b => b.id == bookId) with
  | none => ReviewsResp.notFound
  | some book =>
    let bookReviews := reviewsFor db bookId
    ReviewsResp.ok ⟨book.id, book.title, book.author⟩ bookReviews.length bookReviews

/-! ## Top-rated endpoint -/

/-- A book with the `weightedScore` field the top-rated handler spreads in. -/
structure Scored where
  book : Book
  weightedScore : JNum
deriving DecidableEq, Repr

/-- The mapping step: `weightedScore = (rating * reviewCount).toFixed(2)`
(read back as a number by the comparator). -/
def scoreOf (b : Book) : JNum :=
  round2 (b.rating.mul (JNum.num (b.reviewCount : ℚ)))

/-- Stable descending insertion: `x` stays behind every earlier entry with
a strictly larger score and goes in front of the rest, exactly how a
stable sort with comparator `(a, b) => b.weightedScore - a.weightedScore`
places it among already-sorted entries. -/
def insertScored (x : Scored) : List Scored → List Scored
  | [] => [x]
  | y :: ys =>
    if x.weightedScore.jlt y.weightedScore then y :: insertScored x ys
    else x :: y :: ys

/-- Stable descending sort by `weightedScore` (insertion sort; any stable
sort, in particular the ECMAScript-mandated stable `Array.prototype.sort`,
yields the same list when the comparator is consistent). -/
def sortScored (l : List Scored) : List Scored :=
  l.foldr insertScored []

/-- Handler for `GET /api/books/top-rated`: score every book, sort descending
(stably), keep the first 10. -/
def topRated (books : List Book) : List Scored :=
  (sortScored (books.map (fun b => ⟨b, scoreOf b⟩))).take 10

/-! ## Write endpoints -/

/-- Replace the first element satisfying `p` (the handlers mutate the
object returned by `Array.prototype.find` in place). -/
def replaceFirst (p : α → Bool) (x : α) : List α → List α
  | [] => []
  | a :: as => if p a then x :: as else a :: replaceFirst p x as

/-- The defaults spread of `POST /api/books`: `rating`, `reviewCount`,
`inStock`, `featured` default but are caller-overridable (`...newBook`
comes last). -/
def bookWithDefaults (i : BookInput) : Book :=
  { id := i.id.getD ""
    title := i.title.getD ""
    author := i.author.getD ""
    rating := i.rating.getD (JNum.num 0)
    reviewCount := i.reviewCount.getD 0
    datePublished := i.datePublished
    inStock := i.inStock.getD true
    featured := i.featured.getD false }

/-- Handler for `POST /api/books`.  Here `auth` is whether the bearer token matched;
`writeOk` is whether `writeJSONFile('books.json', …)` succeeded.  The
push happens before the write, so a failed write leaves the book in
memory. -/
def postBook (db : DB) (auth : Bool) (i : BookInput) (writeOk : Bool) :
    DB × WriteResp Book :=
  if !auth then (db, WriteResp.unauthorized)
  else if !(truthyStr i.id && truthyStr i.title && truthyStr i.author) then
    (db, WriteResp.validationError)
  else if (db.books.find? (fun b => b.id == i.id.getD "")).isSome then
    (db, WriteResp.conflict)
  else
    let db' : DB := { db with books := db.books ++ [bookWithDefaults i] }
    if writeOk then (db', WriteResp.created (bookWithDefaults i))
    else (db', WriteResp.persistenceError)

/-- The defaults spread of `POST /api/reviews`: system `timestamp` and
`verified=false`, caller-overridable (`...newReview` comes last); the
rating is kept raw (the strict variant then overrides it with the parsed
float). -/
def reviewWithDefaults (i : ReviewInput) (now : String) : Review :=
  { id := i.id.getD ""
    bookId := i.bookId.getD ""
    author := i.author.getD ""
    rating := i.rating.getD (JVal.num 0)
    timestamp := i.timestamp.getD now
    verified := i.verified.getD false }

/-- The aggregate update both review handlers perform on the referenced
book with the rating value `r` they chose:
`reviewCount += 1; rating = round1((rating * (reviewCount - 1) + r) / reviewCount)`
(the increment happens first, so `reviewCount - 1` is the old count). -/
def updatedBook (book : Book) (r : JNum) : Book :=
  let newCount : ℤ := book.reviewCount + 1
  { book with
    reviewCount := newCount
    rating := round1 (((book.rating.mul (JNum.num ((newCount - 1 : ℤ) : ℚ))).add r).div
      (JNum.num (newCount : ℚ))) }

/-- Handler for `POST /api/reviews`, first (lax) variant: presence is checked by
truthiness only, the raw rating is stored, and the aggregate update uses
`parseInt` with no range check.  `w1`/`w2` are the outcomes of the two
`writeJSONFile` calls (`&&` short-circuits); `now` is
`new Date().toISOString()`. -/
def postReviewLax (db : DB) (auth : Bool) (i : ReviewInput) (w1 w2 : Bool)
    (now : String) : DB × WriteResp Review :=
  if !auth then (db, WriteResp.unauthorized)
  else if !(truthyStr i.id && truthyStr i.bookId && truthyStr i.author &&
      truthyJV i.rating) then
    (db, WriteResp.validationError)
  else
    match db.books.find? (fun b => b.id == i.bookId.getD "") with
    | none => (db, WriteResp.notFound)
    | some book =>
      if (db.reviews.find? (fun r => r.id == i.id.getD "")).isSome then
        (db, WriteResp.conflict)
      else
        let rv : Review := reviewWithDefaults i now
        let book' : Book := updatedBook book (parseIntJV rv.rating)
        let db' : DB :=
          { books := replaceFirst (fun b => b.id == i.bookId.getD "") book' db.books
            reviews := db.reviews ++ [rv] }
        if w1 && w2 then (db', WriteResp.created rv) else (db', WriteResp.persistenceError)

/-- Handler for `POST /api/reviews`, second (strict) variant: after the presence,
existence and duplicate checks it requires `parseFloat(rating)` to be a
number in [1,5]; it stores the parsed float and aggregates with it. -/
def postReviewStrict (db : DB) (auth : Bool) (i : ReviewInput) (w1 w2 : Bool)
    (now : String) : DB × WriteResp Review :=
  if !auth then (db, WriteResp.unauthorized)
  else if !(truthyStr i.id && truthyStr i.bookId && truthyStr i.author &&
      truthyJV i.rating) then
    (db, WriteResp.validationError)
  else
    match db.books.find? (fun b => b.id == i.bookId.getD "") with
    | none => (db, WriteResp.notFound)
    | some book =>
      if (db.reviews.find? (fun r => r.id == i.id.getD "")).isSome then
        (db, WriteResp.conflict)
      else
        match parseFloatJV (i.rating.getD (JVal.num 0)) with
        | JNum.nan => (db, WriteResp.validationError)
        | JNum.num q =>
          if q < 1 || 5 < q then (db, WriteResp.validationError)
          else
            let rv : Review := { reviewWithDefaults i now with rating := JVal.num q }
            let book' : Book := updatedBook book (JNum.num q)
            let db' : DB :=
              { books := replaceFirst (fun b => b.id == i.bookId.getD "") book' db.books
                reviews := db.reviews ++ [rv] }
            if w1 && w2 then (db', WriteResp.created rv)
            else (db', WriteResp.persistenceError)

/-! ## Operation traces

Reachability "through the write operations" is a fold of write requests
over the state loaded at startup; the empty store is the degenerate load
(both files absent or corrupt read as empty collections). -/

/-- One write request: which endpoint (and, for reviews, which of the two
variants), whether the bearer token matched, the body, and the outcomes of
the disk writes. -/
inductive Op where
  | bookOp (auth : Bool) (i : BookInput) (writeOk : Bool) : Op
  | reviewLaxOp (auth : Bool) (i : ReviewInput) (w1 w2 : Bool) (now : String) : Op
  | reviewStrictOp (auth : Bool) (i : ReviewInput) (w1 w2 : Bool) (now : String) : Op
deriving DecidableEq, Repr

/-- State after one write request (the response is discarded). -/
def applyOp (db : DB) : Op → DB
  | Op.bookOp auth i w => (postBook db auth i w).1
  | Op.reviewLaxOp auth i w1 w2 now => (postReviewLax db auth i w1 w2 now).1
  | Op.reviewStrictOp auth i w1 w2 now => (postReviewStrict db auth i w1 w2 now).1

/-- State after a sequence of write requests. -/
def runOps (db : DB) (ops : List Op) : DB := ops.foldl applyOp db

/-- The state loaded when both data files read as empty. -/
def emptyDB : DB := ⟨[], []⟩

/-! ## The review-aggregate invariants -/

/-- Arithmetic mean of the stored reviews' rating values (each read as a
number the way the strict handler does), rounded to one decimal place;
`0` for an empty review list, matching a fresh book's default rating. -/
def trueMeanRating (rs : List Review) : JNum :=
  if rs.length = 0 then JNum.num 0
  else
    round1 (((rs.map (fun r => parseFloatJV r.rating)).foldl JNum.add
      (JNum.num 0)).div (JNum.num (rs.length : ℚ)))

/-- The invariant claimed by the spec: every book's `reviewCount` counts
the stored reviews referencing it, and its `rating` is the rounded mean of
their rating values. -/
def claimedInv (db : DB) : Prop :=
  ∀ b ∈ db.books, b.reviewCount = ((reviewsFor db b.id).length : ℤ) ∧
    b.rating = trueMeanRating (reviewsFor db b.id)

/-- The count half of the invariant, which the code does maintain for
books created with default aggregates (both review variants increment the
referenced book's counter by exactly one while appending exactly one
matching review): every book's `reviewCount` counts the stored reviews
referencing it. -/
def countInv (db : DB) : Prop :=
  ∀ b ∈ db.books, b.reviewCount = ((reviewsFor db b.id).length : ℤ)

/-- Write requests under which the count invariant is maintained: book
creations must not override the `reviewCount` default; reviews may go
through either variant. -/
def goodOp : Op → Prop
  | Op.bookOp _ i _ => i.reviewCount = none
  | Op.reviewLaxOp _ _ _ _ _ => True
  | Op.reviewStrictOp _ _ _ _ _ => True

/-- Induction invariant: book ids are distinct, every stored review
references an existing book, and the count invariant holds. -/
def strongInv (db : DB) : Prop :=
  (db.books.map Book.id).Nodup ∧
  (∀ r ∈ db.reviews, ∃ b ∈ db.books, b.id = r.bookId) ∧
  countInv db

instance (db : DB) : Decidable (claimedInv db) := by
  unfold claimedInv; infer_instance

instance (db : DB) : Decidable (countInv db) := by
  unfold countInv; infer_instance

instance (db : DB) : Decidable (strongInv db) := by
  unfold strongInv; infer_instance

instance (op : Op) : Decidable (goodOp op) := by
  unfold goodOp; cases op <;> infer_instance

/-- The data model's range for a book's `rating`: a number within
0.0–5.0 (NaN is not in range, as every JS comparison with NaN is false). -/
def inRatingRange : JNum → Prop
  | JNum.nan => False
  | JNum.num q => 0 ≤ q ∧ q ≤ 5

instance : DecidablePred inRatingRange := fun x => by
  unfold inRatingRange; cases x <;> infer_instance

/-! ## List lemmas about the in-place update of a found element -/

/-- Splitting view of `find?` and `replaceFirst`: when `find? p l = some b`,
`l` splits as `l₁ ++ b :: l₂` with no match in `l₁`, and `replaceFirst`
replaces exactly that occurrence. -/
theorem replaceFirst_split {α : Type} (p : α → Bool) (x : α) (l : List α) (b : α)
    (h : l.find? p = some b) :
    ∃ l₁ l₂, l = l₁ ++ b :: l₂ ∧ (∀ a ∈ l₁, p a = false) ∧ p b = true ∧
      replaceFirst p x l = l₁ ++ x :: l₂ := by
  induction l with
  | nil => simp at h
  | cons a as ih =>
    by_cases ha : p a
    · rw [List.find?_cons_of_pos as ha] at h
      obtain rfl : a = b := by injection h
      exact ⟨[], as, rfl, by simp, ha, by simp [replaceFirst, ha]⟩
    · rw [List.find?_cons_of_neg as ha] at h
      obtain ⟨l₁, l₂, hsplit, hl₁, hb, hrepl⟩ := ih h
      refine ⟨a :: l₁, l₂, by simp [hsplit], ?_, hb, ?_⟩
      · intro a' ha'
        rcases List.mem_cons.mp ha' with rfl | hmem
        · exact Bool.eq_false_iff.mpr ha
        · exact hl₁ a' hmem
      · simp [replaceFirst, ha, hrepl]

/-- Searching a list that opens with non-matching elements finds the
first match right after them. -/
theorem find?_prefix_cons {α : Type} (p : α → Bool) (x : α) (l₁ l₂ : List α)
    (hl₁ : ∀ a ∈ l₁, p a = false) (hx : p x = true) :
    (l₁ ++ x :: l₂).find? p = some x := by
  induction l₁ with
  | nil =>
    rw [List.nil_append]
    exact List.find?_cons_of_pos _ hx
  | cons a as ih =>
    rw [List.cons_append, List.find?_cons_of_neg _ (by
      simpa using hl₁ a (List.mem_cons_self a as))]
    exact ih fun a' ha' => hl₁ a' (List.mem_cons_of_mem a ha')

/-- Finding again after the in-place update returns the updated element,
provided it still matches. -/
theorem find?_replaceFirst_self {α : Type} (p : α → Bool) (x : α) (l : List α) (b : α)
    (h : l.find? p = some b) (hx : p x = true) :
    (replaceFirst p x l).find? p = some x := by
  obtain ⟨l₁, l₂, _, hl₁, _, hrepl⟩ := replaceFirst_split p x l b h
  rw [hrepl]
  exact find?_prefix_cons p x l₁ l₂ hl₁ hx

/-! ## Concrete fixtures shared by witnesses and counterexamples -/

/-- Fixture: a freshly created book with default aggregates. -/
def bkA : Book :=
  { id := "b1", title := "Tea", author := "Ann", rating := JNum.num 0,
    reviewCount := 0, datePublished := some "2020-05-05", inStock := true,
    featured := false }

/-- Fixture: a store holding just `bkA` and no reviews. -/
def dbA : DB := ⟨[bkA], []⟩

/-- Fixture: a review body with all required fields present. -/
def riFor (revId bookId : String) (r : JVal) : ReviewInput :=
  { id := some revId, bookId := some bookId, author := some "Al",
    rating := some r, timestamp := none, verified := none }

/-- Fixture: a book body with the three required fields and nothing else. -/
def biFor (bookId : String) : BookInput :=
  { id := some bookId, title := some "Tea", author := some "Ann", rating := none,
    reviewCount := none, datePublished := none, inStock := none, featured := none }

/-! ## Claim theorems -/

/-- Helper: a book's date lies in range iff its `datePublished` is
present and lexically between the bounds. -/
theorem dateInRange_iff (b : Book) (s e : String) :
    dateInRange b s e = true ↔
      ∃ d, b.datePublished = some d ∧ strLeB s d = true ∧ strLeB d e = true := by
  unfold dateInRange
  cases h : b.datePublished <;> simp [h, Bool.and_eq_true]

/-- C8: for all boundary strings, the date-range operation returns
exactly the books whose `datePublished` lexically satisfies
`start ≤ d ≤ end` (inclusive at both bounds); it is total in the
boundary strings, so malformed boundaries give a (possibly empty)
lexical-range result rather than an error. -/
theorem c8_dateRange_lexical (db : DB) (startD endD : String) (b : Book) :
    b ∈ getBooksByDate db startD endD ↔
      b ∈ db.books ∧ ∃ d, b.datePublished = some d ∧
        strLeB startD d = true ∧ strLeB d endD = true := by
  unfold getBooksByDate
  rw [List.mem_filter, dateInRange_iff]

/-- C9: fetching the reviews of a book yields NotFound exactly when no
book has the requested id; for an existing book it returns the matching
reviews, their count, and the `{id, title, author}` summary of the
resolved book — in particular an existing book with zero reviews yields
count 0 and an empty list, not an error. -/
theorem c9_reviewsForBook_spec (db : DB) (bid : String) :
    ((∀ b ∈ db.books, b.id ≠ bid) → getReviewsForBook db bid = ReviewsResp.notFound) ∧
    (∀ b, db.books.find? (fun x => x.id == bid) = some b →
      getReviewsForBook db bid =
        ReviewsResp.ok ⟨b.id, b.title, b.author⟩ (reviewsFor db bid).length
          (reviewsFor db bid)) ∧
    (∀ b, db.books.find? (fun x => x.id == bid) = some b → reviewsFor db bid = [] →
      getReviewsForBook db bid = ReviewsResp.ok ⟨b.id, b.title, b.author⟩ 0 []) := by
  refine ⟨fun h => ?_, fun b hb => ?_, fun b hb hrv => ?_⟩
  · have hfind : db.books.find? (fun x => x.id == bid) = none := by
      rw [List.find?_eq_none]; intro x hx; simpa using h x hx
    unfold getReviewsForBook
    rw [hfind]
  · unfold getReviewsForBook
    rw [hb]
  · unfold getReviewsForBook
    rw [hb, hrv]
    rfl

/-- Witness for C9: the empty store 404s, and `dbA`'s book, which has no
reviews, yields count 0 with an empty list. -/
theorem c9_reviewsForBook_spec_witness :
    getReviewsForBook emptyDB "b1" = ReviewsResp.notFound ∧
    getReviewsForBook dbA "b1" = ReviewsResp.ok ⟨"b1", "Tea", "Ann"⟩ 0 [] :=
  ⟨(c9_reviewsForBook_spec emptyDB "b1").1 (by decide),
   (c9_reviewsForBook_spec dbA "b1").2.2 bkA (by decide) (by decide)⟩

/-- C6: an add-review request with all required fields present whose
`bookId` matches no existing book yields NotFound and leaves the state
completely unchanged, in both handler variants. -/
theorem c6_reviewNotFound_noMutation (db : DB) (i : ReviewInput) (w1 w2 : Bool)
    (now : String)
    (hpres : (truthyStr i.id && truthyStr i.bookId && truthyStr i.author &&
      truthyJV i.rating) = true)
    (habs : ∀ b ∈ db.books, b.id ≠ i.bookId.getD "") :
    postReviewLax db true i w1 w2 now = (db, WriteResp.notFound) ∧
    postReviewStrict db true i w1 w2 now = (db, WriteResp.notFound) := by
  have hfind : db.books.find? (fun b => b.id == i.bookId.getD "") = none := by
    rw [List.find?_eq_none]; intro b hb; simpa using habs b hb
  constructor
  · unfold postReviewLax
    rw [hpres, hfind]
    rfl
  · unfold postReviewStrict
    rw [hpres, hfind]
    rfl

/-- Witness for C6 at a concrete store: a review for the absent book id
`"zz"` is rejected with NotFound by both variants, leaving `dbA` as is. -/
theorem c6_reviewNotFound_noMutation_witness :
    postReviewLax dbA true (riFor "r1" "zz" (JVal.num 5)) true true "TS" =
      (dbA, WriteResp.notFound) ∧
    postReviewStrict dbA true (riFor "r1" "zz" (JVal.num 5)) true true "TS" =
      (dbA, WriteResp.notFound) :=
  c6_reviewNotFound_noMutation dbA (riFor "r1" "zz" (JVal.num 5)) true true "TS"
    (by decide) (by decide)

/-- C5 counterexample: a request whose id duplicates an existing book's
id but whose `title` is absent is rejected as a validation error, not a
conflict, so "duplicate id always yields Conflict" fails as stated
(the collection is still left unchanged). -/
theorem c5_duplicateId_counterexample :
    postBook dbA true
      { id := some "b1", title := none, author := some "Ann", rating := none,
        reviewCount := none, datePublished := none, inStock := none,
        featured := none } true = (dbA, WriteResp.validationError) ∧
    (∃ b ∈ dbA.books, b.id = "b1") ∧
    (WriteResp.validationError : WriteResp Book) ≠ WriteResp.conflict := by
  decide

/-- C5 amended: every add-book request that passes the presence check
(truthy id, title, author) and whose id equals an existing book's id
yields Conflict and leaves the store unchanged. -/
theorem c5_duplicateId_amended (db : DB) (i : BookInput) (w : Bool)
    (hpres : (truthyStr i.id && truthyStr i.title && truthyStr i.author) = true)
    (hdup : ∃ b ∈ db.books, b.id = i.id.getD "") :
    postBook db true i w = (db, WriteResp.conflict) := by
  have hfind : (db.books.find? (fun b => b.id == i.id.getD "")).isSome = true := by
    rw [List.find?_isSome]
    obtain ⟨b, hb, hid⟩ := hdup
    exact ⟨b, hb, by simpa using hid⟩
  unfold postBook
  rw [hpres, hfind]
  rfl

/-- Witness for C5 (amended): re-adding `"b1"` with full fields yields
Conflict and the store is unchanged. -/
theorem c5_duplicateId_amended_witness :
    postBook dbA true (biFor "b1") true = (dbA, WriteResp.conflict) :=
  c5_duplicateId_amended dbA (biFor "b1") true (by decide) ⟨bkA, by decide, rfl⟩

/-- C7: when the disk write fails after an accepted mutation, the
operation returns a persistence error and the in-memory mutation is not
rolled back: the appended book stays in what the list query returns, and
the appended review plus the updated book aggregates stay in the store. -/
theorem c7_persistFailure_noRollback :
    (∀ db i,
      (truthyStr i.id && truthyStr i.title && truthyStr i.author) = true →
      db.books.find? (fun b => b.id == i.id.getD "") = none →
      postBook db true i false =
        ({ db with books := db.books ++ [bookWithDefaults i] },
          WriteResp.persistenceError) ∧
      bookWithDefaults i ∈ (getBooks (postBook db true i false).1).2) ∧
    (∀ db i w1 w2 now book,
      (truthyStr i.id && truthyStr i.bookId && truthyStr i.author &&
        truthyJV i.rating) = true →
      db.books.find? (fun b => b.id == i.bookId.getD "") = some book →
      db.reviews.find? (fun r => r.id == i.id.getD "") = none →
      (w1 && w2) = false →
      postReviewLax db true i w1 w2 now =
        ({ books := replaceFirst (fun b => b.id == i.bookId.getD "")
              (updatedBook book (parseIntJV (i.rating.getD (JVal.num 0)))) db.books
           reviews := db.reviews ++ [reviewWithDefaults i now] },
          WriteResp.persistenceError) ∧
      reviewWithDefaults i now ∈
        reviewsFor (postReviewLax db true i w1 w2 now).1 (i.bookId.getD "")) := by
  constructor
  · intro db i hpres hfind
    have hiss : (db.books.find? (fun b => b.id == i.id.getD "")).isSome = false := by
      rw [hfind]; rfl
    have heq : postBook db true i false =
        ({ db with books := db.books ++ [bookWithDefaults i] },
          WriteResp.persistenceError) := by
      unfold postBook
      rw [hpres, hiss]
      rfl
    refine ⟨heq, ?_⟩
    rw [heq]
    exact List.mem_append_right _ (List.mem_singleton.mpr rfl)
  · intro db i w1 w2 now book hpres hfind hfresh hw
    have hiss : (db.reviews.find? (fun r => r.id == i.id.getD "")).isSome = false := by
      rw [hfresh]; rfl
    have heq : postReviewLax db true i w1 w2 now =
        ({ books := replaceFirst (fun b => b.id == i.bookId.getD "")
              (updatedBook book (parseIntJV (i.rating.getD (JVal.num 0)))) db.books
           reviews := db.reviews ++ [reviewWithDefaults i now] },
          WriteResp.persistenceError) := by
      unfold postReviewLax
      rw [hpres, hfind, hiss, hw]
      rfl
    refine ⟨heq, ?_⟩
    rw [heq]
    unfold reviewsFor
    rw [List.mem_filter]
    exact ⟨List.mem_append_right _ (List.mem_singleton.mpr rfl),
      by simp [reviewWithDefaults]⟩

/-- Witness for C7: failed writes at concrete inputs return the
persistence error while the mutation remains visible. -/
theorem c7_persistFailure_noRollback_witness :
    (postBook dbA true (biFor "b2") false).2 = WriteResp.persistenceError ∧
    bookWithDefaults (biFor "b2") ∈ (getBooks (postBook dbA true (biFor "b2") false).1).2 ∧
    (postReviewLax dbA true (riFor "r1" "b1" (JVal.num 5)) false false "TS").2 =
      WriteResp.persistenceError ∧
    reviewWithDefaults (riFor "r1" "b1" (JVal.num 5)) "TS" ∈
      reviewsFor (postReviewLax dbA true (riFor "r1" "b1" (JVal.num 5)) false false "TS").1
        "b1" := by
  have h1 := c7_persistFailure_noRollback.1 dbA (biFor "b2") (by decide) (by decide)
  have h2 := c7_persistFailure_noRollback.2 dbA (riFor "r1" "b1" (JVal.num 5)) false false
    "TS" bkA (by decide) (by decide) (by decide) (by decide)
  exact ⟨by rw [h1.1], h1.2, by rw [h2.1], h2.2⟩

/-- C10: in the lax variant, an authenticated request whose rating is
the truthy non-numeric string `"excellent"` (other required fields
valid) succeeds with 201, the review stores the raw string rating
unmodified, and the referenced book's rating becomes NaN — the integer
parse of the string — which lies outside the 0.0–5.0 range. -/
theorem c10_laxNaN_rating :
    truthyJV (some (JVal.str "excellent")) = true ∧
    (postReviewLax dbA true (riFor "r1" "b1" (JVal.str "excellent")) true true "TS").2 =
      WriteResp.created (reviewWithDefaults (riFor "r1" "b1" (JVal.str "excellent")) "TS") ∧
    reviewWithDefaults (riFor "r1" "b1" (JVal.str "excellent")) "TS" =
      { id := "r1", bookId := "b1", author := "Al", rating := JVal.str "excellent",
        timestamp := "TS", verified := false } ∧
    statusCode
      (postReviewLax dbA true (riFor "r1" "b1" (JVal.str "excellent")) true true "TS").2 =
      201 ∧
    (postReviewLax dbA true (riFor "r1" "b1" (JVal.str "excellent")) true true
      "TS").1.reviews.map Review.rating = [JVal.str "excellent"] ∧
    (postReviewLax dbA true (riFor "r1" "b1" (JVal.str "excellent")) true true
      "TS").1.books.map Book.rating = [JNum.nan] ∧
    ¬ inRatingRange JNum.nan := by
  decide

/-- C4 counterexample: a strict-variant request with all required fields
present whose rating `"7"` parses to a number outside [1,5] is answered
with NotFound because the book-existence check runs first — not with the
validation error the claim promises for every such input. -/
theorem c4_ratingPolicy_counterexample :
    postReviewStrict dbA true (riFor "r1" "zz" (JVal.str "7")) true true "TS" =
      (dbA, WriteResp.notFound) ∧
    (truthyStr (riFor "r1" "zz" (JVal.str "7")).id &&
      truthyStr (riFor "r1" "zz" (JVal.str "7")).bookId &&
      truthyStr (riFor "r1" "zz" (JVal.str "7")).author &&
      truthyJV (riFor "r1" "zz" (JVal.str "7")).rating) = true ∧
    parseFloatJV ((riFor "r1" "zz" (JVal.str "7")).rating.getD (JVal.num 0)) =
      JNum.num 7 ∧
    ¬ (1 ≤ (7 : ℚ) ∧ (7 : ℚ) ≤ 5) ∧
    (WriteResp.notFound : WriteResp Review) ≠ WriteResp.validationError := by
  decide

/-- C4 amended: once the earlier checks pass (fields present, `bookId`
resolves, review id fresh), the strict variant rejects with a validation
error exactly on a rating whose float parse is NaN or outside [1,5],
while the lax variant accepts any truthy rating with no range check —
storing the raw value and aggregating with its integer parse.  Both
behaviors are universally quantified over inputs, i.e. each policy is
applied consistently. -/
theorem c4_ratingPolicy_amended :
    (∀ db i w1 w2 now book,
      (truthyStr i.id && truthyStr i.bookId && truthyStr i.author &&
        truthyJV i.rating) = true →
      db.books.find? (fun b => b.id == i.bookId.getD "") = some book →
      db.reviews.find? (fun r => r.id == i.id.getD "") = none →
      (∀ q : ℚ, parseFloatJV (i.rating.getD (JVal.num 0)) = JNum.num q →
        q < 1 ∨ 5 < q) →
      postReviewStrict db true i w1 w2 now = (db, WriteResp.validationError)) ∧
    (∀ db i w1 w2 now book,
      (truthyStr i.id && truthyStr i.bookId && truthyStr i.author &&
        truthyJV i.rating) = true →
      db.books.find? (fun b => b.id == i.bookId.getD "") = some book →
      db.reviews.find? (fun r => r.id == i.id.getD "") = none →
      (postReviewLax db true i w1 w2 now).1 =
        { books := replaceFirst (fun b => b.id == i.bookId.getD "")
            (updatedBook book (parseIntJV (i.rating.getD (JVal.num 0)))) db.books
          reviews := db.reviews ++ [reviewWithDefaults i now] } ∧
      ((postReviewLax db true i w1 w2 now).2 =
          WriteResp.created (reviewWithDefaults i now) ∨
        (postReviewLax db true i w1 w2 now).2 = WriteResp.persistenceError)) := by
  constructor
  · intro db i w1 w2 now book hpres hfind hfresh hbad
    have hiss : (db.reviews.find? (fun r => r.id == i.id.getD "")).isSome = false := by
      rw [hfresh]; rfl
    unfold postReviewStrict
    rw [hpres, hfind, hiss]
    rcases hq : parseFloatJV (i.rating.getD (JVal.num 0)) with _ | q
    · rfl
    · have : (q < 1 || 5 < q) = true := by
        rcases hbad q hq with h | h
        · exact Bool.or_eq_true_iff.mpr (Or.inl (decide_eq_true h))
        · exact Bool.or_eq_true_iff.mpr (Or.inr (decide_eq_true h))
      simp only [this]
      rfl
  · intro db i w1 w2 now book hpres hfind hfresh
    have hiss : (db.reviews.find? (fun r => r.id == i.id.getD "")).isSome = false := by
      rw [hfresh]; rfl
    have hred : postReviewLax db true i w1 w2 now =
        (if w1 && w2 then
          ({ books := replaceFirst (fun b => b.id == i.bookId.getD "")
              (updatedBook book (parseIntJV (i.rating.getD (JVal.num 0)))) db.books
             reviews := db.reviews ++ [reviewWithDefaults i now] },
            WriteResp.created (reviewWithDefaults i now))
        else
          ({ books := replaceFirst (fun b => b.id == i.bookId.getD "")
              (updatedBook book (parseIntJV (i.rating.getD (JVal.num 0)))) db.books
             reviews := db.reviews ++ [reviewWithDefaults i now] },
            WriteResp.persistenceError)) := by
      unfold postReviewLax
      rw [hpres, hfind, hiss]
      rfl
    rw [hred]
    cases hw : w1 && w2
    · exact ⟨rfl, Or.inr rfl⟩
    · exact ⟨rfl, Or.inl rfl⟩

/-- Witness for C4 (amended): with the book present and a fresh review
id, the strict variant rejects the out-of-range rating `"7"`, and the
lax variant accepts the out-of-range rating 7. -/
theorem c4_ratingPolicy_amended_witness :
    postReviewStrict dbA true (riFor "r1" "b1" (JVal.str "7")) true true "TS" =
      (dbA, WriteResp.validationError) ∧
    (postReviewLax dbA true (riFor "r1" "b1" (JVal.num 7)) true true "TS").1 =
      { books := replaceFirst (fun b => b.id == (riFor "r1" "b1" (JVal.num 7)).bookId.getD "")
          (updatedBook bkA (parseIntJV ((riFor "r1" "b1" (JVal.num 7)).rating.getD
            (JVal.num 0)))) dbA.books
        reviews := dbA.reviews ++ [reviewWithDefaults (riFor "r1" "b1" (JVal.num 7)) "TS"] } ∧
    ((postReviewLax dbA true (riFor "r1" "b1" (JVal.num 7)) true true "TS").2 =
        WriteResp.created (reviewWithDefaults (riFor "r1" "b1" (JVal.num 7)) "TS") ∨
      (postReviewLax dbA true (riFor "r1" "b1" (JVal.num 7)) true true "TS").2 =
        WriteResp.persistenceError) := by
  have h1 := c4_ratingPolicy_amended.1 dbA (riFor "r1" "b1" (JVal.str "7")) true true "TS"
    bkA (by decide) (by decide) (by decide) (by
      intro q hq
      have h7 : parseFloatJV ((riFor "r1" "b1" (JVal.str "7")).rating.getD (JVal.num 0)) =
          JNum.num 7 := by decide
      rw [h7] at hq
      injection hq with hq'
      right
      rw [← hq']
      norm_num)
  have h2 := c4_ratingPolicy_amended.2 dbA (riFor "r1" "b1" (JVal.num 7)) true true "TS"
    bkA (by decide) (by decide) (by decide)
  exact ⟨h1, h2.1, h2.2⟩

/-- C1 counterexample: the lax variant accepts the request rating 4.5
(a truthy number) but aggregates with its integer parse 4: the fresh
book's rating becomes 4.0, while the claim's formula with the carried
rating value — round1((0·0 + 4.5)/1) — gives 4.5. -/
theorem c1_aggregate_counterexample :
    (postReviewLax dbA true (riFor "r1" "b1" (JVal.num (Rat.divInt 9 2))) true true
      "TS").2 =
      WriteResp.created
        (reviewWithDefaults (riFor "r1" "b1" (JVal.num (Rat.divInt 9 2))) "TS") ∧
    (postReviewLax dbA true (riFor "r1" "b1" (JVal.num (Rat.divInt 9 2))) true true
      "TS").1.books.map Book.rating = [JNum.num 4] ∧
    round1 ((((JNum.num 0).mul (JNum.num 0)).add
      (JNum.num (Rat.divInt 9 2))).div (JNum.num 1)) = JNum.num (Rat.divInt 9 2) ∧
    JNum.num 4 ≠ JNum.num (Rat.divInt 9 2) := by
  decide

/-- C1 amended: for every accepted add-review request, with `r` taken as
the rating value the variant actually parses — the integer parse of the
raw rating for the lax variant, the float parse for the strict one — the
referenced book ends in state `reviewCount = N + 1` and
`rating = round1((R·N + r)/(N + 1))`. -/
theorem c1_aggregate_amended :
    (∀ db i w1 w2 now book R N,
      (truthyStr i.id && truthyStr i.bookId && truthyStr i.author &&
        truthyJV i.rating) = true →
      db.books.find? (fun b => b.id == i.bookId.getD "") = some book →
      db.reviews.find? (fun r => r.id == i.id.getD "") = none →
      book.rating = JNum.num R → book.reviewCount = N → 0 ≤ N →
      (postReviewLax db true i w1 w2 now).1.books.find?
          (fun b => b.id == i.bookId.getD "") = some
        { book with
          reviewCount := N + 1
          rating := round1 ((((JNum.num R).mul (JNum.num (N : ℚ))).add
            (parseIntJV (i.rating.getD (JVal.num 0)))).div
              (JNum.num ((N + 1 : ℤ) : ℚ))) }) ∧
    (∀ db i w1 w2 now book R N q,
      (truthyStr i.id && truthyStr i.bookId && truthyStr i.author &&
        truthyJV i.rating) = true →
      db.books.find? (fun b => b.id == i.bookId.getD "") = some book →
      db.reviews.find? (fun r => r.id == i.id.getD "") = none →
      parseFloatJV (i.rating.getD (JVal.num 0)) = JNum.num q → 1 ≤ q → q ≤ 5 →
      book.rating = JNum.num R → book.reviewCount = N → 0 ≤ N →
      (postReviewStrict db true i w1 w2 now).1.books.find?
          (fun b => b.id == i.bookId.getD "") = some
        { book with
          reviewCount := N + 1
          rating := round1 ((((JNum.num R).mul (JNum.num (N : ℚ))).add
            (JNum.num q)).div (JNum.num ((N + 1 : ℤ) : ℚ))) }) := by
  have hbook : ∀ (book : Book) (r : JNum) (R : ℚ) (N : ℤ),
      book.rating = JNum.num R → book.reviewCount = N →
      updatedBook book r =
        { book with
          reviewCount := N + 1
          rating := round1 ((((JNum.num R).mul (JNum.num (N : ℚ))).add r).div
            (JNum.num ((N + 1 : ℤ) : ℚ))) } := by
    intro book r R N hR hN
    simp only [updatedBook]
    rw [hR, hN]
    have : ((N + 1 - 1 : ℤ) : ℚ) = (N : ℚ) := by push_cast; ring
    rw [this]
  constructor
  · intro db i w1 w2 now book R N hpres hfind hfresh hR hN _
    have hiss : (db.reviews.find? (fun r => r.id == i.id.getD "")).isSome = false := by
      rw [hfresh]; rfl
    have hstate : (postReviewLax db true i w1 w2 now).1 =
        { books := replaceFirst (fun b => b.id == i.bookId.getD "")
            (updatedBook book (parseIntJV (i.rating.getD (JVal.num 0)))) db.books
          reviews := db.reviews ++ [reviewWithDefaults i now] } := by
      unfold postReviewLax
      rw [hpres, hfind, hiss]
      cases hw : w1 && w2 <;> rfl
    rw [hstate]
    have hmatch : (fun b => b.id == i.bookId.getD "")
        (updatedBook book (parseIntJV (i.rating.getD (JVal.num 0)))) = true := by
      have := List.find?_some hfind
      simpa [updatedBook] using this
    rw [find?_replaceFirst_self _ _ _ _ hfind hmatch,
      hbook book _ R N hR hN]
  · intro db i w1 w2 now book R N q hpres hfind hfresh hq h1 h5 hR hN _
    have hiss : (db.reviews.find? (fun r => r.id == i.id.getD "")).isSome = false := by
      rw [hfresh]; rfl
    have hcond : (q < 1 || 5 < q) = false := by
      simp only [Bool.or_eq_false_iff, decide_eq_false_iff_not, not_lt]
      exact ⟨h1, h5⟩
    have hstate : (postReviewStrict db true i w1 w2 now).1 =
        { books := replaceFirst (fun b => b.id == i.bookId.getD "")
            (updatedBook book (JNum.num q)) db.books
          reviews := db.reviews ++
            [{ reviewWithDefaults i now with rating := JVal.num q }] } := by
      unfold postReviewStrict
      rw [hpres, hfind, hiss, hq]
      simp only [hcond]
      cases hw : w1 && w2 <;> rfl
    rw [hstate]
    have hmatch : (fun b => b.id == i.bookId.getD "") (updatedBook book (JNum.num q)) =
        true := by
      have := List.find?_some hfind
      simpa [updatedBook] using this
    rw [find?_replaceFirst_self _ _ _ _ hfind hmatch, hbook book _ R N hR hN]

/-- Witness for C1 (amended), at `dbA` (R = 0, N = 0): the lax variant
with rating 4.5 yields reviewCount 1 and rating round1((0·0 + 4)/1),
the strict variant with rating 4.5 yields rating round1((0·0 + 4.5)/1). -/
theorem c1_aggregate_amended_witness :
    (postReviewLax dbA true (riFor "r1" "b1" (JVal.num (Rat.divInt 9 2))) true true
      "TS").1.books.find? (fun b => b.id == "b1") = some
      { bkA with
        reviewCount := 1
        rating := round1 ((((JNum.num 0).mul (JNum.num ((0 : ℤ) : ℚ))).add
          (parseIntJV (JVal.num (Rat.divInt 9 2)))).div
            (JNum.num (((0 : ℤ) + 1 : ℤ) : ℚ))) } ∧
    (postReviewStrict dbA true (riFor "r2" "b1" (JVal.num (Rat.divInt 9 2))) true true
      "TS").1.books.find? (fun b => b.id == "b1") = some
      { bkA with
        reviewCount := 1
        rating := round1 ((((JNum.num 0).mul (JNum.num ((0 : ℤ) : ℚ))).add
          (JNum.num (Rat.divInt 9 2))).div (JNum.num (((0 : ℤ) + 1 : ℤ) : ℚ))) } := by
  constructor
  · exact c1_aggregate_amended.1 dbA (riFor "r1" "b1" (JVal.num (Rat.divInt 9 2)))
      true true "TS" bkA 0 0 (by decide) (by decide) (by decide) rfl rfl (by decide)
  · exact c1_aggregate_amended.2 dbA (riFor "r2" "b1" (JVal.num (Rat.divInt 9 2)))
      true true "TS" bkA 0 0 (Rat.divInt 9 2) (by decide) (by decide) (by decide)
      (by decide) (by norm_num [Rat.divInt_eq_div]) (by norm_num [Rat.divInt_eq_div])
      rfl rfl (by decide)

/-! ## Lemmas for the top-rated ranking (C3) -/

/-- Strictly-less is asymmetric on JS numbers. -/
theorem jlt_asymm {a b : JNum} (h : a.jlt b = true) : b.jlt a = false := by
  cases a with
  | nan => simp [JNum.jlt] at h
  | num qa =>
    cases b with
    | nan => simp [JNum.jlt] at h
    | num qb =>
      simp only [JNum.jlt, decide_eq_true_eq] at h
      simp only [JNum.jlt, decide_eq_false_iff_not, not_lt]
      exact h.le

/-- Not-strictly-less is transitive through a non-NaN middle value. -/
theorem jlt_false_trans {a b c : JNum} (hb : b ≠ JNum.nan)
    (hab : a.jlt b = false) (hbc : b.jlt c = false) : a.jlt c = false := by
  cases a with
  | nan => cases c <;> rfl
  | num qa =>
    cases c with
    | nan => rfl
    | num qc =>
      cases b with
      | nan => exact absurd rfl hb
      | num qb =>
        simp only [JNum.jlt, decide_eq_false_iff_not, not_lt] at hab hbc ⊢
        exact hbc.trans hab

/-- Strictly-less implies the scores are different values. -/
theorem jlt_ne {a b : JNum} (h : a.jlt b = true) : a ≠ b := by
  cases a with
  | nan => simp [JNum.jlt] at h
  | num qa =>
    cases b with
    | nan => simp [JNum.jlt] at h
    | num qb =>
      simp only [JNum.jlt, decide_eq_true_eq] at h
      simpa using h.ne

/-- Elements of the stable insertion are the inserted one or old ones. -/
theorem mem_insertScored {x e : Scored} {l : List Scored}
    (h : e ∈ insertScored x l) : e = x ∨ e ∈ l := by
  induction l with
  | nil => simpa [insertScored] using h
  | cons y ys ih =>
    unfold insertScored at h
    by_cases hxy : x.weightedScore.jlt y.weightedScore = true
    · rw [if_pos hxy] at h
      rcases List.mem_cons.mp h with rfl | h'
      · exact Or.inr (List.mem_cons_self _ _)
      · rcases ih h' with h'' | h''
        · exact Or.inl h''
        · exact Or.inr (List.mem_cons_of_mem _ h'')
    · rw [if_neg hxy] at h
      rcases List.mem_cons.mp h with rfl | h'
      · exact Or.inl rfl
      · exact Or.inr h'

/-- The descending order induced by the handler's comparator
`(a, b) => b.weightedScore - a.weightedScore`: an earlier entry is never
strictly smaller than a later one. -/
def descOrder (a b : Scored) : Prop := a.weightedScore.jlt b.weightedScore = false

/-- Stable insertion preserves descending sortedness when every score in
sight is an actual number. -/
theorem pairwise_insertScored {x : Scored} {l : List Scored}
    (hl : ∀ e ∈ l, e.weightedScore ≠ JNum.nan)
    (h : l.Pairwise descOrder) : (insertScored x l).Pairwise descOrder := by
  induction l with
  | nil => simp [insertScored, List.pairwise_cons, descOrder]
  | cons y ys ih =>
    rw [List.pairwise_cons] at h
    unfold insertScored
    by_cases hxy : x.weightedScore.jlt y.weightedScore = true
    · rw [if_pos hxy]
      rw [List.pairwise_cons]
      refine ⟨fun e he => ?_, ih (fun e he => hl e (List.mem_cons_of_mem _ he)) h.2⟩
      rcases mem_insertScored he with rfl | he'
      · exact jlt_asymm hxy
      · exact h.1 e he'
    · rw [if_neg hxy]
      rw [List.pairwise_cons]
      refine ⟨fun e he => ?_, List.pairwise_cons.mpr h⟩
      rcases List.mem_cons.mp he with rfl | he'
      · exact Bool.eq_false_iff.mpr hxy
      · exact jlt_false_trans (hl y (List.mem_cons_self _ _))
          (Bool.eq_false_iff.mpr hxy) (h.1 e he')

/-- Elements of the sorted list come from the input. -/
theorem mem_sortScored {e : Scored} {l : List Scored} (h : e ∈ sortScored l) :
    e ∈ l := by
  induction l with
  | nil => simpa [sortScored] using h
  | cons a as ih =>
    rcases mem_insertScored (show e ∈ insertScored a (sortScored as) from h)
      with rfl | h'
    · exact List.mem_cons_self _ _
    · exact List.mem_cons_of_mem _ (ih h')

/-- The sort output is descending (all scores being actual numbers). -/
theorem sortScored_pairwise {l : List Scored}
    (hl : ∀ e ∈ l, e.weightedScore ≠ JNum.nan) :
    (sortScored l).Pairwise descOrder := by
  induction l with
  | nil => simp [sortScored]
  | cons a as ih =>
    have h0 : sortScored (a :: as) = insertScored a (sortScored as) := rfl
    rw [h0]
    exact pairwise_insertScored
      (fun e he => hl e (List.mem_cons_of_mem _ (mem_sortScored he)))
      (ih fun e he => hl e (List.mem_cons_of_mem _ he))

/-- Stability of the insertion: the entries carrying any fixed score `s`
keep their relative order (the inserted entry, being originally first,
lands in front of the equal-score ones). -/
theorem filter_insertScored (x : Scored) (l : List Scored) (s : JNum) :
    (insertScored x l).filter (fun e => e.weightedScore == s) =
      if x.weightedScore == s then
        x :: l.filter (fun e => e.weightedScore == s)
      else l.filter (fun e => e.weightedScore == s) := by
  induction l with
  | nil =>
    by_cases hx : (x.weightedScore == s) = true
    · simp [insertScored, hx]
    · simp [insertScored, hx]
  | cons y ys ih =>
    unfold insertScored
    by_cases hxy : x.weightedScore.jlt y.weightedScore = true
    · rw [if_pos hxy]
      by_cases hx : (x.weightedScore == s) = true
      · have hy : (y.weightedScore == s) = false := by
          rw [Bool.eq_false_iff]
          intro hy'
          exact jlt_ne hxy (by rw [eq_of_beq hx, eq_of_beq hy'])
        simp [List.filter_cons, hx, hy, ih]
      · simp [List.filter_cons, hx, ih]
    · rw [if_neg hxy]
      simp [List.filter_cons]

/-- Stability of the sort: filtering any fixed score out of the sorted
list returns those entries in their original order. -/
theorem sortScored_filter (l : List Scored) (s : JNum) :
    (sortScored l).filter (fun e => e.weightedScore == s) =
      l.filter (fun e => e.weightedScore == s) := by
  induction l with
  | nil => rfl
  | cons a as ih =>
    have h0 : sortScored (a :: as) = insertScored a (sortScored as) := rfl
    rw [h0, filter_insertScored, ih]
    by_cases ha : (a.weightedScore == s) = true
    · rw [if_pos ha, List.filter_cons_of_pos (by simp [ha])]
    · rw [if_neg (by simp [ha]), List.filter_cons_of_neg (by simp [ha])]

/-- Scoring never produces NaN from a non-NaN rating. -/
theorem scoreOf_ne_nan {b : Book} (h : b.rating ≠ JNum.nan) :
    scoreOf b ≠ JNum.nan := by
  unfold scoreOf round2
  cases hr : b.rating with
  | nan => exact absurd hr h
  | num q => simp [JNum.mul]

/-- C3: for every book collection whose ratings are actual numbers, the
top-rated operation returns at most 10 entries, in descending order of
the weighted score `(rating * reviewCount).toFixed(2)`, and entries
carrying equal weighted scores appear in their original collection order:
filtering the output at any score gives a prefix of the collection
filtered at that score. -/
theorem c3_topRated_spec (books : List Book)
    (h : ∀ b ∈ books, b.rating ≠ JNum.nan) :
    (topRated books).length ≤ 10 ∧
    (topRated books).Pairwise descOrder ∧
    ∀ s : JNum,
      ((topRated books).filter (fun e => e.weightedScore == s)).map Scored.book <+:
        books.filter (fun b => scoreOf b == s) := by
  refine ⟨List.length_take_le 10 _, ?_, ?_⟩
  · exact (sortScored_pairwise (fun e he => by
      obtain ⟨b, hb, rfl⟩ := List.mem_map.mp he
      exact scoreOf_ne_nan (h b hb))).sublist (List.take_sublist 10 _)
  · intro s
    have h1 : ((topRated books).filter (fun e => e.weightedScore == s)) <+:
        ((sortScored (books.map (fun b => ⟨b, scoreOf b⟩))).filter
          (fun e => e.weightedScore == s)) :=
      ( List.take_prefix 10 _).filter _
    rw [sortScored_filter, List.filter_map] at h1
    have h2 := h1.map Scored.book
    rw [List.map_map] at h2
    have h3 : (books.filter
          ((fun e => e.weightedScore == s) ∘ fun b => (⟨b, scoreOf b⟩ : Scored))).map
        (Scored.book ∘ fun b => (⟨b, scoreOf b⟩ : Scored)) =
        books.filter (fun b => scoreOf b == s) := by
      rw [show (Scored.book ∘ fun b => (⟨b, scoreOf b⟩ : Scored)) = id from rfl,
        List.map_id]
      rfl
    rw [h3] at h2
    exact h2

/-- Fixture book for the ranking example. -/
def mkBk (n : String) (r : ℚ) (c : ℤ) : Book :=
  { id := n, title := n, author := n, rating := JNum.num r, reviewCount := c,
    datePublished := none, inStock := true, featured := false }

/-- Fixture collection with weighted scores 10, 30, 30, 5 in original
order, the spec's ranking example. -/
def booksW : List Book :=
  [mkBk "a" 2 5, mkBk "b" 3 10, mkBk "c" 6 5, mkBk "d" 1 5]

/-- Witness for C3 at the spec's example: bound, order, a stability
instance at score 30, and the concrete stable result `b, c, a, d`. -/
theorem c3_topRated_spec_witness :
    (topRated booksW).length ≤ 10 ∧
    (topRated booksW).Pairwise descOrder ∧
    ((topRated booksW).filter
      (fun e => e.weightedScore == JNum.num 30)).map Scored.book <+:
      booksW.filter (fun b => scoreOf b == JNum.num 30) ∧
    (topRated booksW).map (fun e => e.book.id) = ["b", "c", "a", "d"] := by
  obtain ⟨h1, h2, h3⟩ := c3_topRated_spec booksW (by decide)
  exact ⟨h1, h2, h3 (JNum.num 30), by decide⟩

/-! ## The reviewCount/rating invariant (C2) -/

/-- Fixture add-book input overriding `reviewCount` (allowed by the
defaults spread, since `...newBook` comes last). -/
def biOverride : BookInput :=
  { id := some "b1", title := some "Tea", author := some "Ann", rating := none,
    reviewCount := some 7, datePublished := none, inStock := none, featured := none }

/-- Fixture trace showing the lax variant's store/aggregate mismatch:
a defaults book, then one lax review rated 4.5.  Every arithmetic step
along it (4/1 = 4, `toFixed(1)` of 4) is exact in IEEE doubles as well,
so the trace's final state is the real program's. -/
def laxOps : List Op :=
  [Op.bookOp true (biFor "b1") true,
   Op.reviewLaxOp true (riFor "r1" "b1" (JVal.num (Rat.divInt 9 2))) true true "T1"]

/-- C2 counterexample: two reachable states violate the claimed
invariant, neither involving any rounding.  (i) An add-book request
overriding `reviewCount` to 7 creates a book counting 7 with no stored
reviews.  (ii) The lax variant stores the rating 4.5 raw but aggregates
its integer parse 4, leaving a defaults-created book at rating 4.0
while the rounded mean of its stored rating values is 4.5. -/
theorem c2_invariant_counterexample :
    ¬ claimedInv (runOps emptyDB [Op.bookOp true biOverride true]) ∧
    (¬ claimedInv (runOps emptyDB laxOps) ∧
      (runOps emptyDB laxOps).reviews.map Review.rating =
        [JVal.num (Rat.divInt 9 2)] ∧
      (runOps emptyDB laxOps).books.map Book.rating = [JNum.num 4] ∧
      trueMeanRating (reviewsFor (runOps emptyDB laxOps) "b1") =
        JNum.num (Rat.divInt 9 2)) := by
  decide

/-- State characterization of `postBook`: either the request was
rejected and the state is unchanged, or the id was free and the book was
appended. -/
theorem postBook_state (db : DB) (auth : Bool) (i : BookInput) (w : Bool) :
    (postBook db auth i w).1 = db ∨
    (db.books.find? (fun b => b.id == i.id.getD "") = none ∧
      (postBook db auth i w).1 =
        { db with books := db.books ++ [bookWithDefaults i] }) := by
  unfold postBook
  split
  · exact Or.inl rfl
  · split
    · exact Or.inl rfl
    · split
      · exact Or.inl rfl
      · rename_i hfind
        right
        refine ⟨by simpa using hfind, ?_⟩
        cases w <;> rfl

/-- State characterization of `postReviewStrict`: either rejected with
the state unchanged, or the request resolved a book, carried a fresh id
and a rating parsing into range, and the state holds the appended review
and the in-place aggregate update. -/
theorem postReviewStrict_state (db : DB) (auth : Bool) (i : ReviewInput)
    (w1 w2 : Bool) (now : String) :
    (postReviewStrict db auth i w1 w2 now).1 = db ∨
    (∃ book q, db.books.find? (fun b => b.id == i.bookId.getD "") = some book ∧
      parseFloatJV (i.rating.getD (JVal.num 0)) = JNum.num q ∧
      (postReviewStrict db auth i w1 w2 now).1 =
        { books := replaceFirst (fun b => b.id == i.bookId.getD "")
            (updatedBook book (JNum.num q)) db.books
          reviews := db.reviews ++
            [{ reviewWithDefaults i now with rating := JVal.num q }] }) := by
  unfold postReviewStrict
  split
  · exact Or.inl rfl
  · split
    · exact Or.inl rfl
    · split
      · exact Or.inl rfl
      · rename_i book hfind
        split
        · exact Or.inl rfl
        · split
          · exact Or.inl rfl
          · rename_i q hq
            split
            · exact Or.inl rfl
            · right
              exact ⟨book, q, hfind, hq, by cases hw : w1 && w2 <;> simp [hw]⟩

/-- State characterization of `postReviewLax`: either rejected with the
state unchanged, or the request resolved a book and carried a fresh id,
and the state holds the appended raw review and the in-place aggregate
update with the rating's integer parse. -/
theorem postReviewLax_state (db : DB) (auth : Bool) (i : ReviewInput)
    (w1 w2 : Bool) (now : String) :
    (postReviewLax db auth i w1 w2 now).1 = db ∨
    (∃ book, db.books.find? (fun b => b.id == i.bookId.getD "") = some book ∧
      (postReviewLax db auth i w1 w2 now).1 =
        { books := replaceFirst (fun b => b.id == i.bookId.getD "")
            (updatedBook book (parseIntJV (i.rating.getD (JVal.num 0)))) db.books
          reviews := db.reviews ++ [reviewWithDefaults i now] }) := by
  unfold postReviewLax
  split
  · exact Or.inl rfl
  · split
    · exact Or.inl rfl
    · split
      · exact Or.inl rfl
      · rename_i book hfind
        split
        · exact Or.inl rfl
        · right
          exact ⟨book, hfind, by cases hw : w1 && w2 <;> simp [hw] <;> rfl⟩

/-- Appending one review for a resolved book while bumping that book's
counter in place preserves the strengthened invariant, whatever rating
value `r` the variant aggregates with. -/
theorem strongInv_reviewStep {db : DB} (hinv : strongInv db) {i : ReviewInput}
    {book : Book} (r : JNum) {rv : Review}
    (hfind : db.books.find? (fun b => b.id == i.bookId.getD "") = some book)
    (hrv : rv.bookId = i.bookId.getD "") :
    strongInv
      { books := replaceFirst (fun b => b.id == i.bookId.getD "")
          (updatedBook book r) db.books
        reviews := db.reviews ++ [rv] } := by
  obtain ⟨hnd, hfk, hcount⟩ := hinv
  obtain ⟨l₁, l₂, hsplit, hl₁, hpb, hrepl⟩ :=
    replaceFirst_split (fun b => b.id == i.bookId.getD "")
      (updatedBook book r) db.books book hfind
  have hbid : book.id = i.bookId.getD "" := by simpa using hpb
  have hidU : (updatedBook book r).id = book.id := rfl
  have hbookmem : book ∈ db.books := by
    rw [hsplit]; exact List.mem_append_right _ (List.mem_cons_self _ _)
  have hmapid : (replaceFirst (fun b => b.id == i.bookId.getD "")
      (updatedBook book r) db.books).map Book.id = db.books.map Book.id := by
    rw [hrepl, hsplit, List.map_append, List.map_append, List.map_cons,
      List.map_cons, hidU]
  have hfiltNe : ∀ x : String, x ≠ i.bookId.getD "" →
      (db.reviews ++ [rv]).filter (fun a : Review => a.bookId == x) =
      db.reviews.filter (fun a : Review => a.bookId == x) := by
    intro x hx
    rw [List.filter_append]
    have h0 : ([rv] : List Review).filter (fun a : Review => a.bookId == x) = [] := by
      rw [List.filter_eq_nil]
      intro a ha
      rw [List.mem_singleton] at ha
      subst ha
      rw [hrv]
      simpa using fun hcontra => hx hcontra.symm
    rw [h0, List.append_nil]
  have hfiltEq :
      (db.reviews ++ [rv]).filter (fun a : Review => a.bookId == i.bookId.getD "") =
      reviewsFor db (i.bookId.getD "") ++ [rv] := by
    rw [List.filter_append]
    have h0 : ([rv] : List Review).filter
        (fun a : Review => a.bookId == i.bookId.getD "") = [rv] := by
      simp [hrv]
    rw [h0]
    rfl
  refine ⟨?_, ?_, ?_⟩
  · show ((replaceFirst (fun b => b.id == i.bookId.getD "")
        (updatedBook book r) db.books).map Book.id).Nodup
    rw [hmapid]; exact hnd
  · intro a ha
    rcases List.mem_append.mp ha with ha' | ha'
    · obtain ⟨b, hb, hbid'⟩ := hfk a ha'
      have hb' : b.id ∈ (replaceFirst (fun b => b.id == i.bookId.getD "")
          (updatedBook book r) db.books).map Book.id := by
        rw [hmapid]; exact List.mem_map_of_mem _ hb
      obtain ⟨b', hb'', hid''⟩ := List.mem_map.mp hb'
      exact ⟨b', hb'', by rw [hid'', hbid']⟩
    · rw [List.mem_singleton] at ha'
      subst ha'
      refine ⟨updatedBook book r, ?_, ?_⟩
      · rw [hrepl]; exact List.mem_append_right _ (List.mem_cons_self _ _)
      · rw [hidU, hbid, hrv]
  · intro b' hb'
    rw [hrepl] at hb'
    rcases List.mem_append.mp hb' with h1 | h2
    · have hbid' : b'.id ≠ i.bookId.getD "" := by simpa using hl₁ b' h1
      have hb'mem : b' ∈ db.books := by
        rw [hsplit]; exact List.mem_append_left _ h1
      show b'.reviewCount = (((db.reviews ++ [rv]).filter
        (fun a : Review => a.bookId == b'.id)).length : ℤ)
      rw [hfiltNe b'.id hbid']
      exact hcount b' hb'mem
    · rcases List.mem_cons.mp h2 with rfl | h3
      · show (updatedBook book r).reviewCount = (((db.reviews ++ [rv]).filter
          (fun a : Review => a.bookId == (updatedBook book r).id)).length : ℤ)
        rw [hidU, hbid, hfiltEq]
        have hcnt' : (updatedBook book r).reviewCount = book.reviewCount + 1 := rfl
        have hcb := hcount book hbookmem
        rw [hbid] at hcb
        rw [hcnt', hcb, List.length_append, List.length_singleton]
        push_cast
        ring
      · have hndSplit := hnd
        rw [hsplit, List.map_append, List.map_cons, List.nodup_append] at hndSplit
        have hnotl₂ : book.id ∉ l₂.map Book.id := by
          have h4 := hndSplit.2.1
          rw [List.nodup_cons] at h4
          exact h4.1
        have hbid' : b'.id ≠ i.bookId.getD "" := by
          rw [← hbid]
          intro hcontra
          have h5 : b'.id ∈ l₂.map Book.id := List.mem_map_of_mem _ h3
          rw [hcontra] at h5
          exact hnotl₂ h5
        have hb'mem : b' ∈ db.books := by
          rw [hsplit]
          exact List.mem_append_right _ (List.mem_cons_of_mem _ h3)
        show b'.reviewCount = (((db.reviews ++ [rv]).filter
          (fun a : Review => a.bookId == b'.id)).length : ℤ)
        rw [hfiltNe b'.id hbid']
        exact hcount b' hb'mem

/-- One write request preserves the strengthened invariant, provided it
lies in the good fragment (no `reviewCount` override on book creation). -/
theorem strongInv_applyOp {db : DB} {op : Op} (hinv : strongInv db) (hop : goodOp op) :
    strongInv (applyOp db op) := by
  obtain ⟨hnd, hfk, hcount⟩ := hinv
  cases op with
  | bookOp auth i w =>
    show strongInv (postBook db auth i w).1
    rcases postBook_state db auth i w with heq | ⟨hfind, heq⟩
    · rw [heq]; exact ⟨hnd, hfk, hcount⟩
    · rw [heq]
      have hnotmem : ∀ b ∈ db.books, b.id ≠ i.id.getD "" := by
        rw [List.find?_eq_none] at hfind
        intro b hb
        simpa using hfind b hb
      refine ⟨?_, ?_, ?_⟩
      · show ((db.books ++ [bookWithDefaults i]).map Book.id).Nodup
        rw [List.map_append, List.nodup_append]
        refine ⟨hnd, by simp, ?_⟩
        intro a ha hmem
        obtain ⟨b, hb, rfl⟩ := List.mem_map.mp ha
        rw [List.map_singleton, List.mem_singleton] at hmem
        exact hnotmem b hb (by simpa [bookWithDefaults] using hmem)
      · intro a ha
        obtain ⟨b, hb, hbid⟩ := hfk a ha
        exact ⟨b, List.mem_append_left _ hb, hbid⟩
      · intro b hb
        rcases List.mem_append.mp hb with hb' | hb'
        · exact hcount b hb'
        · rw [List.mem_singleton] at hb'
          subst hb'
          have hempty :
              db.reviews.filter
                (fun a : Review => a.bookId == (bookWithDefaults i).id) = [] := by
            rw [List.filter_eq_nil]
            intro a ha hmatch
            obtain ⟨b₀, hb₀, hbid0⟩ := hfk a ha
            refine hnotmem b₀ hb₀ ?_
            rw [hbid0]
            simpa [bookWithDefaults] using (eq_of_beq hmatch)
          show (bookWithDefaults i).reviewCount = ((db.reviews.filter
            (fun a : Review => a.bookId == (bookWithDefaults i).id)).length : ℤ)
          rw [hempty]
          have hcnt : i.reviewCount = none := hop
          simp [bookWithDefaults, hcnt]
  | reviewLaxOp auth i w1 w2 now =>
    show strongInv (postReviewLax db auth i w1 w2 now).1
    rcases postReviewLax_state db auth i w1 w2 now with heq | ⟨book, hfind, heq⟩
    · rw [heq]; exact ⟨hnd, hfk, hcount⟩
    · rw [heq]
      exact strongInv_reviewStep ⟨hnd, hfk, hcount⟩ _ hfind
        (show (reviewWithDefaults i now).bookId = i.bookId.getD "" from rfl)
  | reviewStrictOp auth i w1 w2 now =>
    show strongInv (postReviewStrict db auth i w1 w2 now).1
    rcases postReviewStrict_state db auth i w1 w2 now with heq | ⟨book, q, hfind, _, heq⟩
    · rw [heq]; exact ⟨hnd, hfk, hcount⟩
    · rw [heq]
      exact strongInv_reviewStep ⟨hnd, hfk, hcount⟩ _ hfind
        (show ({ reviewWithDefaults i now with rating := JVal.num q } : Review).bookId =
          i.bookId.getD "" from rfl)

/-- The strengthened invariant is preserved along any good trace. -/
theorem strongInv_runOps {db : DB} (hdb : strongInv db) (ops : List Op)
    (h : ∀ op ∈ ops, goodOp op) : strongInv (runOps db ops) := by
  induction ops generalizing db with
  | nil => exact hdb
  | cons op ops ih =>
    exact ih (strongInv_applyOp hdb (h op (List.mem_cons_self _ _)))
      (fun op' hop' => h op' (List.mem_cons_of_mem _ hop'))

/-- C2 amended: starting from the empty store, along every trace of
write requests in which add-book bodies do not override the
`reviewCount` default (reviews may go through either variant), each
book's `reviewCount` equals the number of stored reviews whose `bookId`
equals that book's id.  The rating half of the claimed invariant is not
maintained even under this restriction — the counterexample's lax trace
violates it on a defaults-created book — so it is dropped. -/
theorem c2_invariant_amended (ops : List Op) (h : ∀ op ∈ ops, goodOp op) :
    countInv (runOps emptyDB ops) := by
  have h0 : strongInv emptyDB := by
    refine ⟨by simp [emptyDB], ?_, ?_⟩
    · intro r hr
      exact absurd hr (List.not_mem_nil r)
    · intro b hb
      exact absurd hb (List.not_mem_nil b)
  exact (strongInv_runOps h0 ops h).2.2

/-- Fixture trace exercising both review variants on a defaults book:
one strict review rated 5, one lax review rated 4.5. -/
def mixedOps : List Op :=
  [Op.bookOp true (biFor "b1") true,
   Op.reviewStrictOp true (riFor "r1" "b1" (JVal.num 5)) true true "T1",
   Op.reviewLaxOp true (riFor "r2" "b1" (JVal.num (Rat.divInt 9 2))) true true "T2"]

/-- Witness for C2 (amended): the mixed trace lies in the good fragment
and its final state satisfies the count invariant — book `b1` counts
its two reviews. -/
theorem c2_invariant_amended_witness :
    countInv (runOps emptyDB mixedOps) ∧
    (runOps emptyDB mixedOps).books.map Book.reviewCount = [2] :=
  ⟨c2_invariant_amended mixedOps (by decide), by decide⟩

end Amana
